import Mathlib

/-!
# Verification of the PcbDrawToPdf mask-isolation engine

A shallow embedding of `isolate_masks.py` (class `PcbDrawSvg`), the
mask-isolation engine of the PcbDrawToPdf repository, together with proofs
about its operations.

An lxml element is modelled as a rose tree carrying the element's tag,
attribute list (in insertion order, as lxml preserves it), optional direct
text, optional tail text, and the list of child elements.  lxml elements are
mutable objects with identity; identity is modelled by a numeric field `nid`
on every node, and `deepcopy` relabels a subtree with fresh identifiers drawn
from a counter held in the engine state.  Mutation of an element found inside
the working tree is modelled by rebuilding the tree with the subtree at the
found position replaced.
-/

set_option maxHeartbeats 1000000

namespace PcbDraw

/-- An lxml element: identity tag, qualified tag name, attributes in
insertion order, `.text`, `.tail` (both `None` or a string in lxml), and the
ordered children. -/
inductive Elem where
  | mk (nid : Nat) (tag : String) (attrib : List (String × String))
       (text : Option String) (tail : Option String) (children : List Elem)

namespace Elem

def nid : Elem → Nat
  | .mk n _ _ _ _ _ => n

def tag : Elem → String
  | .mk _ t _ _ _ _ => t

def attrib : Elem → List (String × String)
  | .mk _ _ a _ _ _ => a

def text : Elem → Option String
  | .mk _ _ _ tx _ _ => tx

def tail : Elem → Option String
  | .mk _ _ _ _ tl _ => tl

def children : Elem → List Elem
  | .mk _ _ _ _ _ cs => cs

/-- Replace the child list, keeping everything else. -/
def withChildren : Elem → List Elem → Elem
  | .mk n t a tx tl _, cs => .mk n t a tx tl cs

/-- `e.attrib[a]` as a partial lookup (first binding wins, as in a dict whose
keys are unique; lxml attribute names are unique). -/
def getAttr (e : Elem) (a : String) : Option String :=
  (e.attrib.find? (fun p => p.1 = a)).map (fun p => p.2)

def hasAttr (e : Elem) (a : String) : Bool :=
  (e.getAttr a).isSome

end Elem

mutual
/-- Document-order (preorder) list of an element and all its descendants,
mirroring the order in which lxml's `findall`/`xpath` report matches. -/
def descSelf : Elem → List Elem
  | .mk n t a tx tl cs => .mk n t a tx tl cs :: descForest cs
/-- Preorder listing of a forest. -/
def descForest : List Elem → List Elem
  | [] => []
  | x :: xs => descSelf x ++ descForest xs
end

/-- Boolean form of "carries `id=i`". -/
def idIs (i : String) (e : Elem) : Bool :=
  e.getAttr "id" = some i

/-- `elem.xpath('.//*[@id="i"]')`: the strict descendants of `elem` carrying
an `id` attribute equal to `i`, in document order. -/
def findAllById (e : Elem) (i : String) : List Elem :=
  (descForest e.children).filter (idIs i)

/-- `get_id` (`isolate_masks.py`): `self.root.xpath(f'.//*[@id="{id}"]')[0]`.
Indexing an empty result list raises `IndexError`, modelled as `none`. -/
def get_id (root : Elem) (i : String) : Option Elem :=
  (findAllById root i).head?

/-- Python dict assignment `d[k] = v`: replace the value in place when the key
exists (keeping its position), append otherwise.  lxml attribute maps behave
this way. -/
def setAttrList (al : List (String × String)) (k v : String) : List (String × String) :=
  if al.any (fun p => p.1 = k) then
    al.map (fun p => if p.1 = k then (k, v) else p)
  else al ++ [(k, v)]

/-- Python `del d[k]`. -/
def delAttrList (al : List (String × String)) (k : String) : List (String × String) :=
  al.filter (fun p => p.1 ≠ k)

mutual
/-- One element's worth of the `rm_attr` loop body, applied through the
subtree in document order.  The `Bool` is true when a `KeyError` was raised
(a matched element without an `id` attribute); elements after the failure
point are left untouched, as the exception aborts the loop. -/
def rmAttrSelf (a : String) : Elem → Elem × Bool
  | .mk n t al tx tl cs =>
    match al.find? (fun p => p.1 = a) with
    | some ap =>
      match al.find? (fun p => p.1 = "id") with
      | some idp =>
        let al' := delAttrList (setAttrList al "id" (idp.2 ++ "_" ++ ap.2)) a
        let r := rmAttrForest a cs
        (.mk n t al' tx tl r.1, r.2)
      | none => (.mk n t al tx tl cs, true)
    | none =>
      let r := rmAttrForest a cs
      (.mk n t al tx tl r.1, r.2)
def rmAttrForest (a : String) : List Elem → List Elem × Bool
  | [] => ([], false)
  | x :: xs =>
    let r := rmAttrSelf a x
    if r.2 then (r.1 :: xs, true)
    else
      let rs := rmAttrForest a xs
      (r.1 :: rs.1, rs.2)
end

/-- `rm_attr` (`isolate_masks.py`): `elem.xpath(f".//*[@{attr}]")` matches the
strict descendants of the scope carrying `attr`, in document order; each one
gets `attrib["id"] += "_" + attrib[attr]` and then `del attrib[attr]`.  The
matches are a snapshot, but as only attributes of distinct elements are
touched this equals one document-order pass.  The `Bool` result records
whether a `KeyError` aborted the loop midway. -/
def rm_attr (scope : Elem) (a : String) : Elem × Bool :=
  let r := rmAttrForest a scope.children
  (scope.withChildren r.1, r.2)

mutual
/-- `rm_elem_empty` (`isolate_masks.py`): iterate the children; recurse into a
child that has children, otherwise drop it when it has no text and exactly one
attribute.  lxml's child iterator resolves the next sibling before the loop
body runs, so removing the current child does not skip its successor. -/
def rm_elem_empty : Elem → Elem
  | .mk n t al tx tl cs => .mk n t al tx tl (rmEmptyForest cs)
def rmEmptyForest : List Elem → List Elem
  | [] => []
  | x :: xs =>
    if 0 < x.children.length then rm_elem_empty x :: rmEmptyForest xs
    else if x.text = none ∧ x.attrib.length = 1 then rmEmptyForest xs
    else x :: rmEmptyForest xs
end

mutual
/-- First node (the element itself or a descendant, preorder) with the given
identity; models dereferencing an lxml object reference inside the current
tree. -/
def findByNidSelf (m : Nat) : Elem → Option Elem
  | .mk n t al tx tl cs =>
    if n = m then some (.mk n t al tx tl cs) else findByNidForest m cs
def findByNidForest (m : Nat) : List Elem → Option Elem
  | [] => none
  | x :: xs =>
    match findByNidSelf m x with
    | some r => some r
    | none => findByNidForest m xs
end

mutual
/-- `getparent()` projected to the given tree: the first node (preorder) that
has a direct child with identity `m`; `none` when the object is not attached
below this tree. -/
def parentOfSelf (m : Nat) : Elem → Option Elem
  | .mk n t al tx tl cs =>
    if cs.any (fun c => c.nid = m) then some (.mk n t al tx tl cs)
    else parentOfForest m cs
def parentOfForest (m : Nat) : List Elem → Option Elem
  | [] => none
  | x :: xs =>
    match parentOfSelf m x with
    | some r => some r
    | none => parentOfForest m xs
end

/-- `parent.remove(child)`: drop the first child with the given identity. -/
def removeFirstNid (m : Nat) : List Elem → List Elem
  | [] => []
  | x :: xs => if x.nid = m then xs else x :: removeFirstNid m xs

mutual
/-- Replace the first node (self or descendant, preorder) satisfying `p` by
its image under `f`; `none` when no node matches. -/
def updFirstSelf (p : Elem → Bool) (f : Elem → Elem) : Elem → Option Elem
  | .mk n t al tx tl cs =>
    if p (.mk n t al tx tl cs) then some (f (.mk n t al tx tl cs))
    else
      match updFirstForest p f cs with
      | some cs' => some (.mk n t al tx tl cs')
      | none => none
def updFirstForest (p : Elem → Bool) (f : Elem → Elem) : List Elem → Option (List Elem)
  | [] => none
  | x :: xs =>
    match updFirstSelf p f x with
    | some x' => some (x' :: xs)
    | none =>
      match updFirstForest p f xs with
      | some xs' => some (x :: xs')
      | none => none
end

/-- In-place mutation of the tree node with identity `m` (the node an lxml
reference points at). -/
def updateFirstNid (r : Elem) (m : Nat) (f : Elem → Elem) : Elem :=
  (updFirstSelf (fun e => e.nid = m) f r).getD r

/-- In-place mutation of the element `get_id` resolves: the first strict
descendant (preorder) carrying `id=i` is replaced by its image under `f`. -/
def updateFirstById (r : Elem) (i : String) (f : Elem → Elem) : Elem :=
  r.withChildren ((updFirstForest (idIs i) f r.children).getD r.children)

/-- `get_tag` (`isolate_masks.py`): `"{" + self.root.nsmap[ns] + "}" + tag`.
A missing namespace alias raises `KeyError`, modelled as `none`. -/
def get_tag (nsmap : List (String × String)) (tagName ns : String) : Option String :=
  (nsmap.find? (fun p => p.1 = ns)).map (fun p => "\x7b" ++ p.2 ++ "\x7d" ++ tagName)

/-- One iteration of the `rm_tag` loop on match identity `m`:
`elem = group.getparent(); parent = elem.getparent(); if remove_parent and
parent is not None: parent.remove(elem) else: elem.remove(group)`.
A match that is no longer attached below the working tree has been carried
away inside an earlier removal; the Python loop then mutates that detached
subtree, which never reaches the tree again, so the projection leaves the
tree unchanged and marks the loop variable as detached (`none`). -/
def rmTagStep (removeParent : Bool) (acc : Elem × Option Nat) (m : Nat) : Elem × Option Nat :=
  let r := acc.1
  match parentOfSelf m r with
  | none => (r, none)
  | some p =>
    if removeParent then
      match parentOfSelf p.nid r with
      | some gp =>
        (updateFirstNid r gp.nid (fun g => g.withChildren (removeFirstNid p.nid g.children)),
         some p.nid)
      | none =>
        (updateFirstNid r p.nid (fun q => q.withChildren (removeFirstNid m q.children)),
         some p.nid)
    else
      (updateFirstNid r p.nid (fun q => q.withChildren (removeFirstNid m q.children)),
       some p.nid)

/-- `rm_tag` (`isolate_masks.py`): resolve the scope object inside the current
tree, snapshot the matches (`findall(f".//{gtag}")` or `findall(f"./{gtag}")`),
then run the removal loop.  The second component models the method's return
value — the loop variable `elem`, i.e. the last match's parent (or the scope
itself when there was no match) — as an identity usable to re-resolve it. -/
def rm_tag (r : Elem) (scopeNid : Option Nat) (gtag : String)
    (recursive : Bool := false) (removeParent : Bool := false) : Elem × Option Nat :=
  match scopeNid.bind (fun sn => findByNidSelf sn r) with
  | none => (r, scopeNid)
  | some scope =>
    let gs := (if recursive then descForest scope.children else scope.children).filter
      (fun e => e.tag = gtag)
    (gs.map Elem.nid).foldl (rmTagStep removeParent) (r, some scope.nid)

/-- `rm_elem_by_attr_value` (`isolate_masks.py`): snapshot
`elem.xpath(f".//*[@{attr}='{value}']")`, then remove each match from its
parent.  A match detached by an earlier removal is mutated off-tree only. -/
def rm_elem_by_attr_value (r : Elem) (a v : String) : Elem :=
  let ms := ((descForest r.children).filter (fun e => e.getAttr a = some v)).map Elem.nid
  ms.foldl
    (fun r m =>
      match parentOfSelf m r with
      | none => r
      | some p => updateFirstNid r p.nid (fun q => q.withChildren (removeFirstNid m q.children)))
    r

/-- `rm_empty_groups` (`isolate_masks.py`): snapshot all descendant `g`
elements; remove those that (at their turn in the loop) have no children and
exactly one attribute whose key is `id`. -/
def rm_empty_groups (r : Elem) (gtag : String) : Elem :=
  let ms := ((descForest r.children).filter (fun e => e.tag = gtag)).map Elem.nid
  ms.foldl
    (fun r m =>
      match findByNidSelf m r with
      | none => r
      | some g =>
        if g.children.length = 0 ∧ g.attrib.length = 1 ∧
            (g.attrib.map Prod.fst).head? = some "id" then
          match parentOfSelf m r with
          | none => r
          | some p => updateFirstNid r p.nid (fun q => q.withChildren (removeFirstNid m q.children))
        else r)
    r

mutual
/-- `copy.deepcopy` on an lxml element: a structurally identical subtree made
of fresh objects; freshness is modelled by relabelling every `nid` from a
counter. -/
def relabelSelf (k : Nat) : Elem → Elem × Nat
  | .mk _ t al tx tl cs =>
    let r := relabelForest (k + 1) cs
    (.mk k t al tx tl r.1, r.2)
def relabelForest (k : Nat) : List Elem → List Elem × Nat
  | [] => ([], k)
  | x :: xs =>
    let r := relabelSelf k x
    let rs := relabelForest r.2 xs
    (r.1 :: rs.1, rs.2)
end

mutual
/-- Erase object identities, leaving the structural content; two elements are
"structurally equal" (deep-copy equal) when their `stripNid` images agree. -/
def stripNid : Elem → Elem
  | .mk _ t al tx tl cs => .mk 0 t al tx tl (stripNidForest cs)
def stripNidForest : List Elem → List Elem
  | [] => []
  | x :: xs => stripNid x :: stripNidForest xs
end

/-- The error events the engine can raise (spec taxonomy): a failed
identifier/tag lookup (`IndexError` from `xpath(...)[0]`, spec name
`NotFoundError`), a missing namespace alias (`KeyError`, spec name
`NamespaceError`), the explicit empty-board `Exception` (spec name
`EmptyBoardError`), a `KeyError` from a missing `id` during `rm_attr`, and a
`ValueError` from removing a non-child. -/
inductive Err where
  | notFound
  | namespaceKey
  | emptyBoard
  | keyErr
  | valueErr
deriving DecidableEq, Repr

/-- The mutable state of a `PcbDrawSvg` instance: the file-name metadata, the
root namespace table captured at load, the Original Tree (`root_orig`), the
Working Tree (`root`), the insertion-ordered mask store, and the fresh-object
counter backing `deepcopy`. -/
structure PcbState where
  filename : String
  ext : String
  nsmap : List (String × String)
  root_orig : Elem
  root : Elem
  masks : List (String × Elem)
  fresh : Nat

/-- Python dict write `self.masks[k] = v`: overwrite in place when the key is
present (keeping insertion order), append otherwise. -/
def dictInsert (l : List (String × Elem)) (k : String) (v : Elem) : List (String × Elem) :=
  if l.any (fun p => p.1 = k) then
    l.map (fun p => if p.1 = k then (k, v) else p)
  else l ++ [(k, v)]

/-- `get_board`: `self.board = self.get_id("boardContainer")`. -/
def get_board (s : PcbState) : Except Err Elem :=
  match get_id s.root "boardContainer" with
  | none => .error .notFound
  | some b => .ok b

/-- `get_mask` (`isolate_masks.py`): deep-copy the element with the given id,
retag the copy to the namespaced `g` tag, clear its `.text` and `.tail` to the
empty string, and store it under the mask name. -/
def get_mask (s : PcbState) (maskName : String) : PcbState × Option Err :=
  match get_tag s.nsmap "g" "svg" with
  | none => (s, some .namespaceKey)
  | some gtag =>
    match get_id s.root maskName with
    | none => (s, some .notFound)
    | some e =>
      let rc := relabelSelf s.fresh e
      let m := Elem.mk rc.1.nid gtag rc.1.attrib (some "") (some "") rc.1.children
      ({ s with masks := dictInsert s.masks maskName m, fresh := rc.2 }, none)

/-- `get_masks`: capture the three fixed masks in order; an exception from one
capture propagates, leaving earlier captures stored. -/
def get_masks (s : PcbState) : PcbState × Option Err :=
  let r1 := get_mask s "hole-mask"
  match r1.2 with
  | some e => (r1.1, some e)
  | none =>
    let r2 := get_mask r1.1 "pads-mask-silkscreen"
    match r2.2 with
    | some e => (r2.1, some e)
    | none => get_mask r2.1 "pads-mask"

/-- `rm_tag` as a state operation: resolve the namespaced tag first (the
method's first statement), then run the removal loop on the working tree. -/
def rm_tag_state (s : PcbState) (scopeNid : Option Nat) (tagName ns : String)
    (recursive : Bool := false) (removeParent : Bool := false) :
    (PcbState × Option Nat) × Option Err :=
  match get_tag s.nsmap tagName ns with
  | none => ((s, scopeNid), some .namespaceKey)
  | some gtag =>
    let r := rm_tag s.root scopeNid gtag recursive removeParent
    (({ s with root := r.1 }, r.2), none)

/-- `rm_ink_elem`: `rm_tag(self.root, "namedview", "sodipodi")` then
`rm_tag(self.root, "desc")`. -/
def rm_ink_elem (s : PcbState) : PcbState × Option Err :=
  let r1 := rm_tag_state s (some s.root.nid) "namedview" "sodipodi"
  match r1.2 with
  | some e => (r1.1.1, some e)
  | none =>
    let s1 := r1.1.1
    let r2 := rm_tag_state s1 (some s1.root.nid) "desc" "svg"
    (r2.1.1, r2.2)

/-- Python `list.insert(-1, m)` on a non-empty list: insert before the last
element. -/
def insertBeforeLast (m : Elem) (cs : List Elem) : List Elem :=
  cs.take (cs.length - 1) ++ m :: cs.drop (cs.length - 1)

/-- `add_mask_patterns` (`src/src/pcbdrawtopdf/isolate_masks.py`):
`rm_ink_elem`; re-resolve the board; raise when it has no children; then
`board.insert(-1, mask)` for each stored mask in store order. -/
def add_mask_patterns (s : PcbState) : PcbState × Option Err :=
  let r0 := rm_ink_elem s
  match r0.2 with
  | some e => (r0.1, some e)
  | none =>
    let s1 := r0.1
    match get_id s1.root "boardContainer" with
    | none => (s1, some .notFound)
    | some b =>
      if b.children.length = 0 then (s1, some .emptyBoard)
      else
        ({ s1 with
            root := updateFirstById s1.root "boardContainer" (fun bd =>
              bd.withChildren (s1.masks.foldl (fun cs p => insertBeforeLast p.2 cs) bd.children)) },
          none)

/-- `os.path.join(dir, file)` for a relative `file`: keep `dir` as a prefix,
inserting a separator unless `dir` is empty or already ends with one. -/
def pathJoin (dir file : String) : String :=
  if dir = "" then file
  else if dir.data.getLast? = some '/' then dir ++ file
  else dir ++ "/" ++ file

/-- The `save_mask_files` loop: per stored mask, re-resolve the board, append
the mask, serialize the whole working tree to
`join(outpath, filename + "_" + name + ext)`, then remove the mask again.
Returns the final tree, the written files (path paired with the serialized
tree), and the first exception, which aborts the loop. -/
def saveMaskLoop (outpath fn ext : String) (r : Elem) :
    List (String × Elem) → (Elem × List (String × Elem)) × Option Err
  | [] => ((r, []), none)
  | (name, mask) :: rest =>
    match get_id r "boardContainer" with
    | none => ((r, []), some .notFound)
    | some _ =>
      let r1 := updateFirstById r "boardContainer"
        (fun b => b.withChildren (b.children ++ [mask]))
      let fp := pathJoin outpath (fn ++ "_" ++ name ++ ext)
      let r2 := updateFirstById r1 "boardContainer"
        (fun b => b.withChildren (removeFirstNid mask.nid b.children))
      let res := saveMaskLoop outpath fn ext r2 rest
      ((res.1.1, (fp, r1) :: res.1.2), res.2)

/-- `save_mask_files` (`isolate_masks.py`). -/
def save_mask_files (s : PcbState) (outpath : String) :
    (PcbState × List (String × Elem)) × Option Err :=
  let res := saveMaskLoop outpath s.filename s.ext s.root s.masks
  (({ s with root := res.1.1 }, res.1.2), res.2)

/-- `isolate_board` (`isolate_masks.py`): remove the component container from
the root (`self.root.remove(elem)` — a `ValueError` when it is not a direct
child), re-resolve the board, drop its direct `g` children, drop every
descendant `mask` element together with that element's parent, then strip
`mask` attributes document-wide. -/
def isolate_board (s : PcbState) : PcbState × Option Err :=
  match get_id s.root "componentContainer" with
  | none => (s, some .notFound)
  | some comp =>
    if s.root.children.any (fun c => c.nid = comp.nid) then
      let root1 := s.root.withChildren (removeFirstNid comp.nid s.root.children)
      match get_id root1 "boardContainer" with
      | none => ({ s with root := root1 }, some .notFound)
      | some b =>
        match get_tag s.nsmap "g" "svg" with
        | none => ({ s with root := root1 }, some .namespaceKey)
        | some gtag =>
          let r1 := rm_tag root1 (some b.nid) gtag
          match get_tag s.nsmap "mask" "svg" with
          | none => ({ s with root := r1.1 }, some .namespaceKey)
          | some mtag =>
            let r2 := rm_tag r1.1 r1.2 mtag true true
            let r3 := rm_attr r2.1 "mask"
            ({ s with root := r3.1 }, if r3.2 then some .keyErr else none)
    else (s, some .valueErr)

/-- `rm_masks` (`isolate_masks.py`): strip `mask` attributes, remove every
descendant `mask` element, then `rm_ink_elem`. -/
def rm_masks (s : PcbState) : PcbState × Option Err :=
  let ra := rm_attr s.root "mask"
  let s1 := { s with root := ra.1 }
  if ra.2 then (s1, some .keyErr)
  else
    match get_tag s1.nsmap "mask" "svg" with
    | none => (s1, some .namespaceKey)
    | some mtag =>
      let r := rm_tag s1.root (some s1.root.nid) mtag true
      rm_ink_elem { s1 with root := r.1 }

/-- `clean` (`src/PcbDrawToPdf/isolate_masks.py`): drop empty groups, drop the
highlight container, then remove `metadata` and `namedview` elements
recursively (both resolved against the default `svg` alias, as the source
does). -/
def clean (s : PcbState) : PcbState × Option Err :=
  match get_tag s.nsmap "g" "svg" with
  | none => (s, some .namespaceKey)
  | some gtag =>
    let r1 := rm_empty_groups s.root gtag
    let r2 := rm_elem_by_attr_value r1 "id" "highlightContainer"
    match get_tag s.nsmap "metadata" "svg", get_tag s.nsmap "namedview" "svg" with
    | some mt, some nv =>
      let r3 := (rm_tag r2 (some s.root.nid) mt true).1
      let r4 := (rm_tag r3 (some s.root.nid) nv true).1
      ({ s with root := r4 }, none)
    | _, _ => ({ s with root := r2 }, some .namespaceKey)

/-- `reset` (`isolate_masks.py`): `self.root = deepcopy(self.root_orig)`,
then `get_board()` (which raises when the board id is absent). -/
def reset (s : PcbState) : PcbState × Option Err :=
  let rc := relabelSelf s.fresh s.root_orig
  let s1 := { s with root := rc.1, fresh := rc.2 }
  match get_id s1.root "boardContainer" with
  | none => (s1, some .notFound)
  | some _ => (s1, none)

/-- The engine's mutating operations (the public methods a session chains
between `load` and `reset`). -/
inductive Op where
  | opGetMasks
  | opRmMasks
  | opIsolateBoard
  | opAddMaskPatterns
  | opSaveMaskFiles (outpath : String)
  | opClean

/-- Run one operation, keeping the state it leaves behind (also on an
exception: Python exceptions leave the partially mutated object in place). -/
def applyOp (s : PcbState) : Op → PcbState
  | .opGetMasks => (get_masks s).1
  | .opRmMasks => (rm_masks s).1
  | .opIsolateBoard => (isolate_board s).1
  | .opAddMaskPatterns => (add_mask_patterns s).1
  | .opSaveMaskFiles out => (save_mask_files s out).1.1
  | .opClean => (clean s).1

def applyOps (s : PcbState) (ops : List Op) : PcbState :=
  ops.foldl applyOp s

/-! ### Concrete example documents

Small documents used to instantiate the theorems on explicit inputs.  The
default SVG namespace URI is abbreviated to `S` (alias `svg`), the Inkscape
auxiliary one to `P` (alias `sodipodi`). -/

/-- Qualified tag name in the default namespace, `"{S}" + t`. -/
def qS (t : String) : String := "\x7bS\x7d" ++ t

def exMaskHole : Elem := .mk 10 (qS "mask") [("id", "hole-mask")] (some "\n") (some "\n")
  [.mk 11 (qS "rect") [("id", "r0")] none none []]
def exMaskSilk : Elem := .mk 20 (qS "mask") [("id", "pads-mask-silkscreen")] none none []
def exMaskPads : Elem := .mk 30 (qS "mask") [("id", "pads-mask")] none none []
def exBoard : Elem := .mk 40 (qS "g") [("id", "boardContainer")] none none
  [.mk 41 (qS "g") [("id", "b1")] none none [], .mk 42 (qS "path") [("id", "b2")] none none []]
def exComp : Elem := .mk 50 (qS "g") [("id", "componentContainer")] none none []
def exDoc : Elem := .mk 0 (qS "svg") [("id", "root")] none none
  [exMaskHole, exMaskSilk, exMaskPads, exBoard, exComp]
def exNsmap : List (String × String) := [("svg", "S"), ("sodipodi", "P")]

/-- A freshly loaded session on `exDoc`. -/
def exState : PcbState :=
  { filename := "board", ext := ".svg", nsmap := exNsmap,
    root_orig := exDoc, root := exDoc, masks := [], fresh := 100 }

/-- The session after capturing the three masks. -/
def exStateMasks : PcbState := (get_masks exState).1

/-- A document whose board fragment has no children. -/
def exDocEmptyBoard : Elem := .mk 0 (qS "svg") [] none none
  [.mk 40 (qS "g") [("id", "boardContainer")] none none []]

/-- A session on the empty-board document holding one captured mask. -/
def exStateEmptyBoard : PcbState :=
  { filename := "board", ext := ".svg", nsmap := exNsmap,
    root_orig := exDocEmptyBoard, root := exDocEmptyBoard,
    masks := [("hole-mask", .mk 99 (qS "g") [("id", "hole-mask")] (some "") (some "") [])],
    fresh := 100 }

/-- A document with a `mask`-tagged element whose parent is the document root
(so the grandparent is absent). -/
def c5doc : Elem := .mk 0 (qS "svg") [] none none
  [.mk 1 (qS "mask") [("id", "m1")] none none [],
   .mk 2 (qS "g") [("id", "keep")] none none []]

/-- A document containing an element with `id="x"` and `mask="hole-mask"`. -/
def c4doc : Elem := .mk 0 (qS "svg") [] none none
  [.mk 1 (qS "g") [("id", "x"), ("mask", "hole-mask")] none none []]

/-- A one-element tree that itself carries `id` and `mask`: the scope of
`rm_attr` is never matched by `.//*[@mask]`. -/
def c4scope : Elem := .mk 0 (qS "g") [("id", "s"), ("mask", "hole-mask")] none none []

/-- Document violating the `rm_attr` precondition: the second child carries
`mask` but no `id`; the first and third are well-formed. -/
def c10doc : Elem := .mk 0 (qS "svg") [] none none
  [.mk 1 (qS "g") [("id", "a"), ("mask", "url(#m)")] none none [],
   .mk 2 (qS "g") [("mask", "url(#m)")] none none [],
   .mk 3 (qS "g") [("id", "c"), ("mask", "url(#m)")] none none []]

/-- The state `rm_attr` leaves `c10doc` in when the `KeyError` fires: the
first child is already renamed and stripped, the offender and everything
after it are untouched. -/
def c10afterRaise : Elem := .mk 0 (qS "svg") [] none none
  [.mk 1 (qS "g") [("id", "a_url(#m)")] none none [],
   .mk 2 (qS "g") [("mask", "url(#m)")] none none [],
   .mk 3 (qS "g") [("id", "c"), ("mask", "url(#m)")] none none []]

/-- A document on which `rm_elem_empty` removes one element on the first pass
(the inner empty group) and one more on a second pass (the group that became
empty). -/
def c9doc : Elem := .mk 0 (qS "svg") [] none none
  [.mk 1 (qS "g") [("id", "a")] none none [.mk 2 (qS "g") [("id", "b")] none none []]]

/-- Number of elements of a tree. -/
def nodeCount (e : Elem) : Nat := (descSelf e).length

/-- Number of elements of a forest. -/
def forestCount (l : List Elem) : Nat := (descForest l).length

/-! ### Basic lemmas about the element type and the traversals -/

@[simp] theorem Elem.nid_mk (n t a tx tl cs) : (Elem.mk n t a tx tl cs).nid = n := rfl
@[simp] theorem Elem.tag_mk (n t a tx tl cs) : (Elem.mk n t a tx tl cs).tag = t := rfl
@[simp] theorem Elem.attrib_mk (n t a tx tl cs) : (Elem.mk n t a tx tl cs).attrib = a := rfl
@[simp] theorem Elem.text_mk (n t a tx tl cs) : (Elem.mk n t a tx tl cs).text = tx := rfl
@[simp] theorem Elem.tail_mk (n t a tx tl cs) : (Elem.mk n t a tx tl cs).tail = tl := rfl
@[simp] theorem Elem.children_mk (n t a tx tl cs) : (Elem.mk n t a tx tl cs).children = cs := rfl
@[simp] theorem Elem.withChildren_mk (n t a tx tl cs cs') :
    (Elem.mk n t a tx tl cs).withChildren cs' = Elem.mk n t a tx tl cs' := rfl

@[simp] theorem Elem.nid_withChildren (e : Elem) (cs) : (e.withChildren cs).nid = e.nid := by
  cases e; rfl

@[simp] theorem Elem.tag_withChildren (e : Elem) (cs) : (e.withChildren cs).tag = e.tag := by
  cases e; rfl

@[simp] theorem Elem.attrib_withChildren (e : Elem) (cs) :
    (e.withChildren cs).attrib = e.attrib := by
  cases e; rfl

@[simp] theorem Elem.children_withChildren (e : Elem) (cs) :
    (e.withChildren cs).children = cs := by
  cases e; rfl

@[simp] theorem Elem.withChildren_withChildren (e : Elem) (cs cs') :
    (e.withChildren cs).withChildren cs' = e.withChildren cs' := by
  cases e; rfl

@[simp] theorem Elem.withChildren_self (e : Elem) : e.withChildren e.children = e := by
  cases e; rfl

@[simp] theorem Elem.getAttr_withChildren (e : Elem) (cs) (a : String) :
    (e.withChildren cs).getAttr a = e.getAttr a := by
  cases e; rfl

@[simp] theorem idIs_withChildren (i : String) (e : Elem) (cs) :
    idIs i (e.withChildren cs) = idIs i e := by
  simp [idIs]

@[simp] theorem descForest_nil : descForest [] = [] := rfl

@[simp] theorem descForest_cons (x : Elem) (xs : List Elem) :
    descForest (x :: xs) = descSelf x ++ descForest xs := rfl

theorem descSelf_eq (e : Elem) : descSelf e = e :: descForest e.children := by
  cases e; rfl

theorem self_mem_descSelf (e : Elem) : e ∈ descSelf e := by
  rw [descSelf_eq]; exact List.mem_cons_self e _

/-! ### C6: the `get_id` lookup contract -/

/-- C6: `get_id` fails (the `xpath(...)[0]` indexing raises, spec name
`NotFoundError`) exactly when no element carries the requested id; when
several elements share the id it returns the first in document order; and an
engine lookup of the required `boardContainer` identifier on a document
lacking it fails the operation with that error. -/
theorem claim6_get_id_contract (r : Elem) (i : String) :
    (get_id r i = none ↔ ∀ e ∈ descForest r.children, idIs i e = false) ∧
    (∀ b, get_id r i = some b → idIs i b = true ∧
      ∃ pre post, descForest r.children = pre ++ b :: post ∧
        ∀ e ∈ pre, idIs i e = false) ∧
    (∀ s : PcbState, get_id s.root "boardContainer" = none →
      get_board s = .error .notFound) := by
  refine ⟨?_, ?_, ?_⟩
  · unfold get_id findAllById
    rw [List.head?_eq_none_iff, List.filter_eq_nil_iff]
    simp
  · intro b hb
    unfold get_id findAllById at hb
    rw [List.head?_eq_some_iff] at hb
    obtain ⟨ys, hys⟩ := hb
    rw [List.filter_eq_cons_iff] at hys
    obtain ⟨l₁, l₂, hsplit, hpre, hpb, _⟩ := hys
    exact ⟨hpb, l₁, l₂, hsplit, fun e he => by simpa using hpre e he⟩
  · intro s hs
    unfold get_board
    rw [hs]

/-- C6 witness: a lookup of an id nobody carries in `exDoc` fails, and
`get_board` on a session whose document lacks `boardContainer` reports the
failure. -/
theorem claim6_get_id_contract_witness :
    get_id exDoc "absent-id" = none ∧
    get_board { exState with root := c5doc, root_orig := c5doc } = .error .notFound := by
  constructor
  · exact (claim6_get_id_contract exDoc "absent-id").1.mpr (by decide)
  · exact (claim6_get_id_contract c5doc "x").2.2
      { exState with root := c5doc, root_orig := c5doc } (by rfl)

/-! ### Lemmas about attribute-list editing -/

theorem find?_delAttrList_self (al : List (String × String)) (a : String) :
    (delAttrList al a).find? (fun p => p.1 = a) = none := by
  induction al with
  | nil => rfl
  | cons p rest ih =>
    by_cases hp : p.1 = a
    · simp [delAttrList, List.filter_cons, hp]
    · simp [delAttrList, List.filter_cons, hp, List.find?_cons]

theorem find?_delAttrList_other (al : List (String × String)) (a k : String) (hk : k ≠ a) :
    (delAttrList al a).find? (fun p => p.1 = k) = al.find? (fun p => p.1 = k) := by
  induction al with
  | nil => rfl
  | cons p rest ih =>
    by_cases hp : p.1 = a
    · have hnk : ¬ p.1 = k := fun h => hk (h ▸ hp)
      simpa [delAttrList, List.filter_cons, hp, List.find?_cons, hnk, hk, Ne.symm hk] using ih
    · by_cases hpk : p.1 = k
      · simp [delAttrList, List.filter_cons, hp, List.find?_cons, hpk, hk, Ne.symm hk]
      · simpa [delAttrList, List.filter_cons, hp, List.find?_cons, hpk, hk, Ne.symm hk] using ih

theorem find?_setAttrList_self (al : List (String × String)) (k v : String)
    (h : al.any (fun p => p.1 = k) = true) :
    (setAttrList al k v).find? (fun p => p.1 = k) = some (k, v) := by
  unfold setAttrList
  rw [if_pos h]
  induction al with
  | nil => simp at h
  | cons p rest ih =>
    by_cases hp : p.1 = k
    · simp [List.find?_cons, hp]
    · have h' : rest.any (fun p => p.1 = k) = true := by
        simpa [List.any_cons, hp] using h
      simpa [List.find?_cons, hp] using ih h'

theorem getAttr_none_find? (e : Elem) (a : String) (h : e.getAttr a = none) :
    e.attrib.find? (fun p => p.1 = a) = none := by
  unfold Elem.getAttr at h
  cases hf : e.attrib.find? (fun p => p.1 = a) with
  | none => rfl
  | some p => rw [hf] at h; simp at h

theorem getAttr_some_find? (e : Elem) (a v : String) (h : e.getAttr a = some v) :
    ∃ q, e.attrib.find? (fun p => p.1 = a) = some q ∧ q.1 = a ∧ q.2 = v := by
  unfold Elem.getAttr at h
  cases hf : e.attrib.find? (fun p => p.1 = a) with
  | none => rw [hf] at h; simp at h
  | some q =>
    rw [hf] at h
    simp at h
    have hp := List.find?_some hf
    exact ⟨q, rfl, by simpa using hp, h⟩

theorem find?_some_any (al : List (String × String)) (k : String) (q : String × String)
    (h : al.find? (fun p => p.1 = k) = some q) : al.any (fun p => p.1 = k) = true := by
  have hm := List.mem_of_find?_eq_some h
  have hp := List.find?_some h
  exact List.any_eq_true.mpr ⟨q, hm, hp⟩

/-! ### Lemmas about `rm_attr` -/

mutual
theorem rmAttrSelf_clean (a : String) (t : Elem) (h : (rmAttrSelf a t).2 = false) :
    ∀ e ∈ descSelf (rmAttrSelf a t).1, e.getAttr a = none := by
  cases t with
  | mk n tg al tx tl cs =>
    cases hfa : al.find? (fun p => p.1 = a) with
    | none =>
      have hres : rmAttrSelf a (.mk n tg al tx tl cs)
          = (.mk n tg al tx tl (rmAttrForest a cs).1, (rmAttrForest a cs).2) := by
        simp [rmAttrSelf, hfa]
      rw [hres] at h ⊢
      intro e he
      rw [descSelf_eq] at he
      simp only [Elem.children_mk, List.mem_cons] at he
      rcases he with he | he
      · subst he; simp [Elem.getAttr, hfa]
      · exact rmAttrForest_clean a cs h e he
    | some ap =>
      cases hfid : al.find? (fun p => p.1 = "id") with
      | none =>
        have : (rmAttrSelf a (.mk n tg al tx tl cs)).2 = true := by
          simp [rmAttrSelf, hfa, hfid]
        rw [this] at h; cases h
      | some idp =>
        have hres : rmAttrSelf a (.mk n tg al tx tl cs)
            = (.mk n tg (delAttrList (setAttrList al "id" (idp.2 ++ "_" ++ ap.2)) a) tx tl
                (rmAttrForest a cs).1, (rmAttrForest a cs).2) := by
          simp [rmAttrSelf, hfa, hfid]
        rw [hres] at h ⊢
        intro e he
        rw [descSelf_eq] at he
        simp only [Elem.children_mk, List.mem_cons] at he
        rcases he with he | he
        · subst he
          simp [Elem.getAttr, find?_delAttrList_self]
        · exact rmAttrForest_clean a cs h e he

theorem rmAttrForest_clean (a : String) (l : List Elem) (h : (rmAttrForest a l).2 = false) :
    ∀ e ∈ descForest (rmAttrForest a l).1, e.getAttr a = none := by
  cases l with
  | nil => intro e he; simp [rmAttrForest] at he
  | cons x xs =>
    cases hr2 : (rmAttrSelf a x).2 with
    | true => simp [rmAttrForest, hr2] at h
    | false =>
      have hres : rmAttrForest a (x :: xs)
          = ((rmAttrSelf a x).1 :: (rmAttrForest a xs).1, (rmAttrForest a xs).2) := by
        simp [rmAttrForest, hr2]
      rw [hres] at h ⊢
      intro e he
      rw [descForest_cons, List.mem_append] at he
      rcases he with he | he
      · exact rmAttrSelf_clean a x hr2 e he
      · exact rmAttrForest_clean a xs h e he
end

mutual
theorem rmAttrSelf_noop (a : String) (t : Elem)
    (h : ∀ e ∈ descSelf t, e.getAttr a = none) : rmAttrSelf a t = (t, false) := by
  cases t with
  | mk n tg al tx tl cs =>
    have htop := h _ (self_mem_descSelf (.mk n tg al tx tl cs))
    have hfa := getAttr_none_find? (.mk n tg al tx tl cs) a htop
    simp only [Elem.attrib_mk] at hfa
    have hcs : ∀ e ∈ descForest cs, e.getAttr a = none := by
      intro e he
      refine h e ?_
      rw [descSelf_eq]
      exact List.mem_cons_of_mem _ (by simpa using he)
    have hrec := rmAttrForest_noop a cs hcs
    simp [rmAttrSelf, hfa, hrec]

theorem rmAttrForest_noop (a : String) (l : List Elem)
    (h : ∀ e ∈ descForest l, e.getAttr a = none) : rmAttrForest a l = (l, false) := by
  cases l with
  | nil => rfl
  | cons x xs =>
    have hx : ∀ e ∈ descSelf x, e.getAttr a = none := by
      intro e he
      exact h e (by rw [descForest_cons, List.mem_append]; exact Or.inl he)
    have hxs : ∀ e ∈ descForest xs, e.getAttr a = none := by
      intro e he
      exact h e (by rw [descForest_cons, List.mem_append]; exact Or.inr he)
    have h1 := rmAttrSelf_noop a x hx
    have h2 := rmAttrForest_noop a xs hxs
    simp [rmAttrForest, h1, h2]
end

mutual
theorem rmAttrSelf_success (a : String) (t : Elem)
    (h : ∀ e ∈ descSelf t, (e.getAttr a).isSome = true → (e.getAttr "id").isSome = true) :
    (rmAttrSelf a t).2 = false := by
  cases t with
  | mk n tg al tx tl cs =>
    have hcs : ∀ e ∈ descForest cs,
        (e.getAttr a).isSome = true → (e.getAttr "id").isSome = true := by
      intro e he
      refine h e ?_
      rw [descSelf_eq]
      exact List.mem_cons_of_mem _ (by simpa using he)
    have hrec := rmAttrForest_success a cs hcs
    cases hfa : al.find? (fun p => p.1 = a) with
    | none => simp [rmAttrSelf, hfa, hrec]
    | some ap =>
      have htop : ((Elem.mk n tg al tx tl cs).getAttr "id").isSome = true := by
        refine h _ (self_mem_descSelf _) ?_
        simp [Elem.getAttr, hfa]
      cases hfid : al.find? (fun p => p.1 = "id") with
      | none => simp [Elem.getAttr, hfid] at htop
      | some idp => simp [rmAttrSelf, hfa, hfid, hrec]

theorem rmAttrForest_success (a : String) (l : List Elem)
    (h : ∀ e ∈ descForest l, (e.getAttr a).isSome = true → (e.getAttr "id").isSome = true) :
    (rmAttrForest a l).2 = false := by
  cases l with
  | nil => rfl
  | cons x xs =>
    have hx := rmAttrSelf_success a x (fun e he => h e (by
      rw [descForest_cons, List.mem_append]; exact Or.inl he))
    have hxs := rmAttrForest_success a xs (fun e he => h e (by
      rw [descForest_cons, List.mem_append]; exact Or.inr he))
    simp [rmAttrForest, hx, hxs]
end

/-! ### C4 and C10: `rm_attr` -/

/-- C4 counterexample: `rm_attr` applied to a tree whose scope element itself
carries `id="s"` and `mask="hole-mask"` leaves the tree unchanged — that
element keeps the `mask` attribute and its `id` is not rewritten, because
`.//*[@mask]` matches strict descendants of the scope only. -/
theorem claim4_rm_attr_cex :
    rm_attr c4scope "mask" = (c4scope, false) ∧
    c4scope.getAttr "mask" = some "hole-mask" ∧
    c4scope.getAttr "id" = some "s" :=
  ⟨rfl, rfl, rfl⟩

/-- C4 (amended): every strict descendant of the scope carrying `id="x"` and
the target attribute is left with `id="x_<value>"` and without the attribute;
after a successful application no strict descendant of the scope retains the
attribute (the scope element itself is never examined), and a second
application is a no-op. -/
theorem claim4_rm_attr (a : String) (ha : a ≠ "id") (scope : Elem) :
    (∀ e x v, e.getAttr "id" = some x → e.getAttr a = some v →
      (rmAttrSelf a e).1.getAttr "id" = some (x ++ "_" ++ v) ∧
      (rmAttrSelf a e).1.getAttr a = none) ∧
    ((rm_attr scope a).2 = false →
      (∀ e ∈ descForest (rm_attr scope a).1.children, e.getAttr a = none) ∧
      rm_attr (rm_attr scope a).1 a = ((rm_attr scope a).1, false)) := by
  constructor
  · intro e x v hid hv
    obtain ⟨q, hq, hq1, hq2⟩ := getAttr_some_find? e a v hv
    obtain ⟨qi, hqi, hqi1, hqi2⟩ := getAttr_some_find? e "id" x hid
    cases e with
    | mk n tg al tx tl cs =>
      simp only [Elem.attrib_mk] at hq hqi
      have hres : (rmAttrSelf a (.mk n tg al tx tl cs)).1
          = .mk n tg (delAttrList (setAttrList al "id" (qi.2 ++ "_" ++ q.2)) a) tx tl
              (rmAttrForest a cs).1 := by
        simp [rmAttrSelf, hq, hqi]
      rw [hres]
      constructor
      · unfold Elem.getAttr
        simp only [Elem.attrib_mk]
        rw [find?_delAttrList_other _ _ _ (Ne.symm ha),
          find?_setAttrList_self _ _ _ (find?_some_any al "id" qi hqi)]
        simp [hqi2, hq2]
      · unfold Elem.getAttr
        simp only [Elem.attrib_mk]
        rw [find?_delAttrList_self]
        rfl
  · intro hsucc
    have hsucc' : (rmAttrForest a scope.children).2 = false := by
      simpa [rm_attr] using hsucc
    have h1 : ∀ e ∈ descForest (rm_attr scope a).1.children, e.getAttr a = none := by
      intro e he
      simp only [rm_attr, Elem.children_withChildren] at he
      exact rmAttrForest_clean a scope.children hsucc' e he
    refine ⟨h1, ?_⟩
    have hnoop := rmAttrForest_noop a (rm_attr scope a).1.children h1
    simp only [rm_attr, Elem.children_withChildren] at hnoop ⊢
    rw [hnoop]
    simp

/-- C4 witness: on the concrete element with `id="x"`, `mask="hole-mask"` the
rename produces `id="x_hole-mask"`, and a second application on `c4doc` is a
no-op. -/
theorem claim4_rm_attr_witness :
    (rmAttrSelf "mask"
        (Elem.mk 1 (qS "g") [("id", "x"), ("mask", "hole-mask")] none none [])).1.getAttr "id"
      = some "x_hole-mask" ∧
    rm_attr (rm_attr c4doc "mask").1 "mask" = ((rm_attr c4doc "mask").1, false) := by
  constructor
  · exact ((claim4_rm_attr "mask" (by decide) c4doc).1
      (Elem.mk 1 (qS "g") [("id", "x"), ("mask", "hole-mask")] none none [])
      "x" "hole-mask" rfl rfl).1
  · exact ((claim4_rm_attr "mask" (by decide) c4doc).2 (by rfl)).2

/-- C10: when every descendant carrying the target attribute also carries an
`id`, the `KeyError` branch of `rm_attr` is unreachable; on `c10doc`, which
violates the precondition at its second child, the call raises with the first
child already renamed and stripped while the offender and the later sibling
are untouched — a partial mutation without rollback. -/
theorem claim10_rm_attr_precondition (a : String) (scope : Elem)
    (h : ∀ e ∈ descForest scope.children,
      (e.getAttr a).isSome = true → (e.getAttr "id").isSome = true) :
    (rm_attr scope a).2 = false ∧
    rm_attr c10doc "mask" = (c10afterRaise, true) := by
  refine ⟨?_, by rfl⟩
  simpa [rm_attr] using rmAttrForest_success a scope.children h

/-- C10 witness: `exDoc` satisfies the precondition, so `rm_attr` succeeds on
it, and the violating document is left partially renamed. -/
theorem claim10_rm_attr_precondition_witness :
    (rm_attr exDoc "mask").2 = false ∧ rm_attr c10doc "mask" = (c10afterRaise, true) :=
  claim10_rm_attr_precondition "mask" exDoc (by decide)

/-! ### Lemmas about `rm_elem_empty` -/

@[simp] theorem nodeCount_mk (n t a tx tl cs) :
    nodeCount (.mk n t a tx tl cs) = 1 + forestCount cs := by
  simp [nodeCount, forestCount, descSelf]
  omega

@[simp] theorem forestCount_nil : forestCount ([] : List Elem) = 0 := rfl

@[simp] theorem forestCount_cons (x : Elem) (xs : List Elem) :
    forestCount (x :: xs) = nodeCount x + forestCount xs := by
  simp [nodeCount, forestCount]

theorem nodeCount_pos (e : Elem) : 1 ≤ nodeCount e := by
  cases e; simp

theorem rm_elem_empty_mk (n t a tx tl cs) :
    rm_elem_empty (.mk n t a tx tl cs) = .mk n t a tx tl (rmEmptyForest cs) := by
  rfl

theorem rm_elem_empty_children (e : Elem) :
    (rm_elem_empty e).children = rmEmptyForest e.children := by
  cases e; rfl

theorem rmEmptyForest_cons_rec (x : Elem) (xs : List Elem) (hb : 0 < x.children.length) :
    rmEmptyForest (x :: xs) = rm_elem_empty x :: rmEmptyForest xs := by
  simp only [rmEmptyForest]
  rw [if_pos hb]

theorem rmEmptyForest_cons_drop (x : Elem) (xs : List Elem) (hb : ¬ 0 < x.children.length)
    (hc : x.text = none ∧ x.attrib.length = 1) :
    rmEmptyForest (x :: xs) = rmEmptyForest xs := by
  simp only [rmEmptyForest]
  rw [if_neg hb, if_pos hc]

theorem rmEmptyForest_cons_keep (x : Elem) (xs : List Elem) (hb : ¬ 0 < x.children.length)
    (hc : ¬(x.text = none ∧ x.attrib.length = 1)) :
    rmEmptyForest (x :: xs) = x :: rmEmptyForest xs := by
  simp only [rmEmptyForest]
  rw [if_neg hb, if_neg hc]

mutual
theorem nodeCount_rm_le (t : Elem) : nodeCount (rm_elem_empty t) ≤ nodeCount t := by
  cases t with
  | mk n tg al tx tl cs =>
    rw [rm_elem_empty_mk]
    simpa using forestCount_rm_le cs
theorem forestCount_rm_le (l : List Elem) : forestCount (rmEmptyForest l) ≤ forestCount l := by
  cases l with
  | nil => simp [rmEmptyForest]
  | cons x xs =>
    by_cases hb : 0 < x.children.length
    · have h1 := nodeCount_rm_le x
      have h2 := forestCount_rm_le xs
      rw [rmEmptyForest_cons_rec x xs hb]
      simp only [forestCount_cons]
      omega
    · by_cases hc : x.text = none ∧ x.attrib.length = 1
      · have h2 := forestCount_rm_le xs
        have h3 := nodeCount_pos x
        rw [rmEmptyForest_cons_drop x xs hb hc]
        simp only [forestCount_cons]
        omega
      · have h2 := forestCount_rm_le xs
        rw [rmEmptyForest_cons_keep x xs hb hc]
        simp only [forestCount_cons]
        omega
end

mutual
theorem nodeCount_second (t : Elem) :
    2 * nodeCount (rm_elem_empty t) ≤ nodeCount t + nodeCount (rm_elem_empty (rm_elem_empty t)) := by
  cases t with
  | mk n tg al tx tl cs =>
    have h := forestCount_second cs
    simp only [rm_elem_empty_mk, nodeCount_mk]
    omega
theorem forestCount_second (l : List Elem) :
    2 * forestCount (rmEmptyForest l)
      ≤ forestCount l + forestCount (rmEmptyForest (rmEmptyForest l)) := by
  cases l with
  | nil => simp [rmEmptyForest]
  | cons x xs =>
    by_cases hb : 0 < x.children.length
    · -- first pass keeps `rm_elem_empty x`; what the second pass does to it
      -- depends on whether the recursion emptied it
      rw [rmEmptyForest_cons_rec x xs hb]
      by_cases hb2 : 0 < (rm_elem_empty x).children.length
      · rw [rmEmptyForest_cons_rec _ _ hb2]
        have h1 := nodeCount_second x
        have h2 := forestCount_second xs
        simp only [forestCount_cons]
        omega
      · by_cases hc2 : (rm_elem_empty x).text = none ∧ (rm_elem_empty x).attrib.length = 1
        · -- the recursed child became empty and the second pass removes it;
          -- the first pass had removed all of its children, at least one
          rw [rmEmptyForest_cons_drop _ _ hb2 hc2]
          have h2 := forestCount_second xs
          have hx2 : nodeCount (rm_elem_empty x) = 1 := by
            cases x with
            | mk n' t' a' tx' tl' cs' =>
              rw [rm_elem_empty_mk] at hb2 ⊢
              simp only [Elem.children_mk] at hb2
              have hnil : rmEmptyForest cs' = [] := by
                cases hcs : rmEmptyForest cs' with
                | nil => rfl
                | cons c cr => rw [hcs] at hb2; simp at hb2
              simp [hnil]
          have hx1 : 2 ≤ nodeCount x := by
            cases x with
            | mk n' t' a' tx' tl' cs' =>
              simp only [Elem.children_mk] at hb
              cases cs' with
              | nil => simp at hb
              | cons c cr =>
                have := nodeCount_pos c
                simp only [nodeCount_mk, forestCount_cons]
                omega
          simp only [forestCount_cons]
          omega
        · rw [rmEmptyForest_cons_keep _ _ hb2 hc2]
          have h1 := nodeCount_rm_le x
          have h2 := forestCount_second xs
          simp only [forestCount_cons]
          omega
    · by_cases hc : x.text = none ∧ x.attrib.length = 1
      · rw [rmEmptyForest_cons_drop x xs hb hc]
        have h2 := forestCount_second xs
        have h3 := nodeCount_pos x
        simp only [forestCount_cons]
        omega
      · rw [rmEmptyForest_cons_keep x xs hb hc, rmEmptyForest_cons_keep x _ hb hc]
        have h2 := forestCount_second xs
        simp only [forestCount_cons]
        omega
end

theorem rmEmptyForest_keeps (cs : List Elem) (x : Elem) (hx : x ∈ cs)
    (h : ¬(x.children = [] ∧ x.text = none ∧ x.attrib.length = 1)) :
    (x.children = [] → x ∈ rmEmptyForest cs) ∧
    (x.children ≠ [] → rm_elem_empty x ∈ rmEmptyForest cs) := by
  induction cs with
  | nil => cases hx
  | cons y ys ih =>
    rcases List.mem_cons.mp hx with hxy | hmem
    · subst hxy
      constructor
      · intro hnil
        have hb : ¬ 0 < x.children.length := by rw [hnil]; simp
        have hc : ¬(x.text = none ∧ x.attrib.length = 1) := by
          intro hcc; exact h ⟨hnil, hcc.1, hcc.2⟩
        rw [rmEmptyForest_cons_keep x ys hb hc]
        exact List.mem_cons_self _ _
      · intro hne
        have hb : 0 < x.children.length := by
          cases hcs : x.children with
          | nil => exact absurd hcs hne
          | cons c cr => simp
        rw [rmEmptyForest_cons_rec x ys hb]
        exact List.mem_cons_self _ _
    · have hrest := ih hmem
      by_cases hb : 0 < y.children.length
      · rw [rmEmptyForest_cons_rec y ys hb]
        exact ⟨fun hh => List.mem_cons_of_mem _ (hrest.1 hh),
          fun hh => List.mem_cons_of_mem _ (hrest.2 hh)⟩
      · by_cases hc : y.text = none ∧ y.attrib.length = 1
        · rw [rmEmptyForest_cons_drop y ys hb hc]
          exact hrest
        · rw [rmEmptyForest_cons_keep y ys hb hc]
          exact ⟨fun hh => List.mem_cons_of_mem _ (hrest.1 hh),
            fun hh => List.mem_cons_of_mem _ (hrest.2 hh)⟩

/-! ### C9: single-pass pruning -/

/-- C9 counterexample: there is no input on which the second application of
`rm_elem_empty` removes strictly more elements than the first — every element
the second pass removes became childless because the first pass removed at
least one of its children. -/
theorem claim9_prune_cex :
    ¬ ∃ t : Elem,
      nodeCount t - nodeCount (rm_elem_empty t)
        < nodeCount (rm_elem_empty t) - nodeCount (rm_elem_empty (rm_elem_empty t)) := by
  rintro ⟨t, ht⟩
  have h1 := nodeCount_second t
  have h2 := nodeCount_rm_le t
  have h3 := nodeCount_rm_le (rm_elem_empty t)
  omega

/-- C9 (amended): `rm_elem_empty` removes a childless child only when it has
no text and exactly one attribute; a child that has children is recursed into
and kept even if the recursion empties it; a second application can remove
further elements (on `c9doc` the sizes go 3, 2, 1), but never strictly more
than the first application removed. -/
theorem claim9_prune_single_pass (cs : List Elem) (x : Elem) (hx : x ∈ cs)
    (h : ¬(x.children = [] ∧ x.text = none ∧ x.attrib.length = 1)) :
    (x.children = [] → x ∈ rmEmptyForest cs) ∧
    (x.children ≠ [] → rm_elem_empty x ∈ rmEmptyForest cs) ∧
    (nodeCount c9doc = 3 ∧ nodeCount (rm_elem_empty c9doc) = 2 ∧
      nodeCount (rm_elem_empty (rm_elem_empty c9doc)) = 1) ∧
    (∀ t : Elem,
      nodeCount (rm_elem_empty t) - nodeCount (rm_elem_empty (rm_elem_empty t))
        ≤ nodeCount t - nodeCount (rm_elem_empty t)) := by
  refine ⟨(rmEmptyForest_keeps cs x hx h).1, (rmEmptyForest_keeps cs x hx h).2,
    ⟨by rfl, by rfl, by rfl⟩, ?_⟩
  intro t
  have h1 := nodeCount_second t
  have h2 := nodeCount_rm_le t
  have h3 := nodeCount_rm_le (rm_elem_empty t)
  omega

/-- C9 witness: the group in `c9doc` has a child, so the first pass recurses
into it and keeps it even though the recursion empties it. -/
theorem claim9_prune_single_pass_witness :
    rm_elem_empty (.mk 1 (qS "g") [("id", "a")] none none
        [.mk 2 (qS "g") [("id", "b")] none none []])
      ∈ rmEmptyForest c9doc.children := by
  exact (claim9_prune_single_pass c9doc.children
    (.mk 1 (qS "g") [("id", "a")] none none [.mk 2 (qS "g") [("id", "b")] none none []])
    (by simp [c9doc]) (by simp)).2.1 (by simp)

/-! ### Lemmas about identity-based access -/

theorem findByNidSelf_self (e : Elem) : findByNidSelf e.nid e = some e := by
  cases e; simp [findByNidSelf]

mutual
theorem parentOfSelf_none (k : Nat) (t : Elem)
    (h : ∀ p ∈ descSelf t, ∀ c ∈ p.children, c.nid ≠ k) : parentOfSelf k t = none := by
  cases t with
  | mk n tg al tx tl cs =>
    have htop : ¬ cs.any (fun c => c.nid = k) = true := by
      intro hany
      obtain ⟨c, hc, hck⟩ := List.any_eq_true.mp hany
      exact h _ (self_mem_descSelf _) c (by simpa using hc) (by simpa using hck)
    have hcs : parentOfForest k cs = none := by
      refine parentOfForest_none k cs ?_
      intro p hp c hc
      refine h p ?_ c hc
      rw [descSelf_eq]
      exact List.mem_cons_of_mem _ (by simpa using hp)
    simp [parentOfSelf, htop, hcs]
theorem parentOfForest_none (k : Nat) (l : List Elem)
    (h : ∀ p ∈ descForest l, ∀ c ∈ p.children, c.nid ≠ k) : parentOfForest k l = none := by
  cases l with
  | nil => rfl
  | cons x xs =>
    have hx : parentOfSelf k x = none := by
      refine parentOfSelf_none k x ?_
      intro p hp c hc
      exact h p (by rw [descForest_cons, List.mem_append]; exact Or.inl hp) c hc
    have hxs : parentOfForest k xs = none := by
      refine parentOfForest_none k xs ?_
      intro p hp c hc
      exact h p (by rw [descForest_cons, List.mem_append]; exact Or.inr hp) c hc
    simp [parentOfForest, hx, hxs]
end

theorem removeFirstNid_append (m : Nat) (xs ys : List Elem) (x : Elem)
    (hx : x.nid = m) (hxs : m ∉ xs.map Elem.nid) :
    removeFirstNid m (xs ++ x :: ys) = xs ++ ys := by
  induction xs with
  | nil => simp [removeFirstNid, hx]
  | cons a as ih =>
    have ha : ¬ a.nid = m := by
      intro hh
      exact hxs (by simp [List.map_cons, ← hh])
    have ih' := ih (fun hh => hxs (by rw [List.map_cons]; exact List.mem_cons_of_mem _ hh))
    simp only [List.cons_append, removeFirstNid, ha, if_false, List.append_eq]
    rw [ih']

/-! ### C5: `rm_tag` with `remove_parent` and an absent grandparent -/

/-- C5 counterexample: in `c5doc` the `mask` match's parent is the document
root; with `remove_parent` set the code does not skip the removal — it falls
into the `else` branch and removes the match itself, so the root loses the
child with identity 1. -/
theorem claim5_rm_tag_cex :
    c5doc.children.map Elem.nid = [1, 2] ∧
    (rm_tag c5doc (some 0) (qS "mask") true true).1.children.map Elem.nid = [2] :=
  ⟨rfl, rfl⟩

/-- C5 (amended): when `removeParent` is set and the match's parent is the
document root (so the grandparent is absent), the parent removal is skipped
but the match itself is removed from the root — the loop falls back to the
plain-removal branch instead of failing. -/
theorem claim5_rm_tag_root_parent (r : Elem) (gtag : String) (xs ys : List Elem) (m : Elem)
    (hch : r.children = xs ++ m :: ys)
    (honly : (descForest r.children).filter (fun e => e.tag = gtag) = [m])
    (hnm : m.nid ∉ xs.map Elem.nid)
    (hroot : ∀ p ∈ descSelf r, ∀ c ∈ p.children, c.nid ≠ r.nid) :
    (rm_tag r (some r.nid) gtag true true).1 = r.withChildren (xs ++ ys) := by
  have hscope : (some r.nid).bind (fun sn => findByNidSelf sn r) = some r := by
    simp [findByNidSelf_self]
  have hparent : parentOfSelf m.nid r = some r := by
    cases r with
    | mk n tg al tx tl cs =>
      have hmem : m ∈ cs := by
        simp only [Elem.children_mk] at hch
        rw [hch]
        exact List.mem_append_right _ (List.mem_cons_self _ _)
      have hany : cs.any (fun c => c.nid = m.nid) = true :=
        List.any_eq_true.mpr ⟨m, hmem, by simp⟩
      simp [parentOfSelf, hany]
  have hgp : parentOfSelf r.nid r = none := parentOfSelf_none r.nid r hroot
  unfold rm_tag
  rw [hscope]
  simp only [if_true]
  rw [honly]
  simp only [List.map_cons, List.map_nil, List.foldl_cons, List.foldl_nil]
  unfold rmTagStep
  simp only [hparent, hgp]
  unfold updateFirstNid
  have hupd : updFirstSelf (fun e => e.nid = r.nid)
      (fun q => q.withChildren (removeFirstNid m.nid q.children)) r
      = some (r.withChildren (removeFirstNid m.nid r.children)) := by
    cases r with
    | mk n tg al tx tl cs => simp [updFirstSelf]
  rw [hupd]
  simp only [Option.getD_some]
  rw [hch, removeFirstNid_append m.nid xs ys m rfl hnm]
  simp

/-- C5 witness: the amended behavior on the concrete document `c5doc`. -/
theorem claim5_rm_tag_root_parent_witness :
    (rm_tag c5doc (some c5doc.nid) (qS "mask") true true).1
      = c5doc.withChildren [.mk 2 (qS "g") [("id", "keep")] none none []] := by
  exact claim5_rm_tag_root_parent c5doc (qS "mask")
    [] [.mk 2 (qS "g") [("id", "keep")] none none []]
    (.mk 1 (qS "mask") [("id", "m1")] none none [])
    rfl rfl (by simp) (by decide)

/-! ### Lemmas about `deepcopy` (relabelling) -/

mutual
theorem stripNid_relabelSelf (k : Nat) (e : Elem) :
    stripNid (relabelSelf k e).1 = stripNid e := by
  cases e with
  | mk n tg al tx tl cs =>
    simp only [relabelSelf, stripNid]
    rw [stripNidForest_relabelForest (k + 1) cs]
theorem stripNidForest_relabelForest (k : Nat) (l : List Elem) :
    stripNidForest (relabelForest k l).1 = stripNidForest l := by
  cases l with
  | nil => rfl
  | cons x xs =>
    simp only [relabelForest, stripNidForest]
    rw [stripNid_relabelSelf k x, stripNidForest_relabelForest (relabelSelf k x).2 xs]
end

theorem relabel_attrib (k : Nat) (e : Elem) : (relabelSelf k e).1.attrib = e.attrib := by
  cases e; simp [relabelSelf]

theorem relabel_children_strip (k : Nat) (e : Elem) :
    stripNidForest (relabelSelf k e).1.children = stripNidForest e.children := by
  cases e with
  | mk n tg al tx tl cs =>
    simp only [relabelSelf, Elem.children_mk]
    exact stripNidForest_relabelForest (k + 1) cs

/-! ### C1: mask capture -/

/-- C1: on a session with an empty mask store whose document contains the
three fixed identifiers, `get_masks` succeeds and the store then holds
exactly three entries keyed `hole-mask`, `pads-mask-silkscreen`, `pads-mask`
in that insertion order; each entry is a deep copy (same attributes, same
children up to object identity) of the located element, retagged to the
namespaced `g` tag with empty text and tail; the working tree and the
original tree are unchanged. -/
theorem claim1_get_masks (s : PcbState) (gtag : String) (e1 e2 e3 : Elem)
    (hm : s.masks = [])
    (hg : get_tag s.nsmap "g" "svg" = some gtag)
    (h1 : get_id s.root "hole-mask" = some e1)
    (h2 : get_id s.root "pads-mask-silkscreen" = some e2)
    (h3 : get_id s.root "pads-mask" = some e3) :
    ∃ m1 m2 m3,
      (get_masks s).2 = none ∧
      (get_masks s).1.masks =
        [("hole-mask", m1), ("pads-mask-silkscreen", m2), ("pads-mask", m3)] ∧
      (get_masks s).1.root = s.root ∧
      (get_masks s).1.root_orig = s.root_orig ∧
      (∀ m e, (m, e) ∈ [(m1, e1), (m2, e2), (m3, e3)] →
        m.tag = gtag ∧ m.text = some "" ∧ m.tail = some "" ∧
        m.attrib = e.attrib ∧ stripNidForest m.children = stripNidForest e.children) := by
  refine ⟨Elem.mk (relabelSelf s.fresh e1).1.nid gtag (relabelSelf s.fresh e1).1.attrib
      (some "") (some "") (relabelSelf s.fresh e1).1.children,
    Elem.mk (relabelSelf (relabelSelf s.fresh e1).2 e2).1.nid gtag
      (relabelSelf (relabelSelf s.fresh e1).2 e2).1.attrib
      (some "") (some "") (relabelSelf (relabelSelf s.fresh e1).2 e2).1.children,
    Elem.mk (relabelSelf (relabelSelf (relabelSelf s.fresh e1).2 e2).2 e3).1.nid gtag
      (relabelSelf (relabelSelf (relabelSelf s.fresh e1).2 e2).2 e3).1.attrib
      (some "")
      (some "") (relabelSelf (relabelSelf (relabelSelf s.fresh e1).2 e2).2 e3).1.children,
    ?_, ?_, ?_, ?_, ?_⟩
  · simp [get_masks, get_mask, hg, h1, h2, h3, hm, dictInsert]
  · simp [get_masks, get_mask, hg, h1, h2, h3, hm, dictInsert]
  · simp [get_masks, get_mask, hg, h1, h2, h3, hm, dictInsert]
  · simp [get_masks, get_mask, hg, h1, h2, h3, hm, dictInsert]
  · intro m e hme
    simp only [List.mem_cons, List.not_mem_nil, or_false, Prod.mk.injEq] at hme
    rcases hme with ⟨hmx, he⟩ | ⟨hmx, he⟩ | ⟨hmx, he⟩ <;> subst he <;> subst hmx <;>
      exact ⟨rfl, rfl, rfl, relabel_attrib _ _, relabel_children_strip _ _⟩

/-- C1 witness: capturing on `exState` yields the three fixed keys in order
and leaves the working tree untouched. -/
theorem claim1_get_masks_witness :
    (get_masks exState).2 = none ∧
    ((get_masks exState).1.masks.map Prod.fst)
      = ["hole-mask", "pads-mask-silkscreen", "pads-mask"] ∧
    (get_masks exState).1.root = exDoc := by
  obtain ⟨m1, m2, m3, hnone, hmasks, hroot, -, -⟩ :=
    claim1_get_masks exState ("\x7bS\x7d" ++ "g") exMaskHole exMaskSilk exMaskPads
      rfl rfl rfl rfl rfl
  exact ⟨hnone, by rw [hmasks]; rfl, hroot⟩

/-! ### The one-hole-context ("rebuild") view of `updateFirstById`

When `get_id` resolves an element, the tree decomposes into a fixed context
around that element: reading the first match again, or mutating it in place,
happens at that one position.  This is the shallow counterpart of lxml's
in-place mutation of the object `get_id` returned. -/

mutual
theorem updFirstSelf_none (p : Elem → Bool) (f : Elem → Elem) (t : Elem)
    (h : ∀ e ∈ descSelf t, p e = false) : updFirstSelf p f t = none := by
  cases t with
  | mk n tg al tx tl cs =>
    have htop : p (.mk n tg al tx tl cs) = false := h _ (self_mem_descSelf _)
    have hcs : updFirstForest p f cs = none := by
      refine updFirstForest_none p f cs ?_
      intro e he
      refine h e ?_
      rw [descSelf_eq]
      exact List.mem_cons_of_mem _ (by simpa using he)
    simp [updFirstSelf, htop, hcs]
theorem updFirstForest_none (p : Elem → Bool) (f : Elem → Elem) (l : List Elem)
    (h : ∀ e ∈ descForest l, p e = false) : updFirstForest p f l = none := by
  cases l with
  | nil => rfl
  | cons x xs =>
    have hx : updFirstSelf p f x = none := by
      refine updFirstSelf_none p f x ?_
      intro e he
      exact h e (by rw [descForest_cons, List.mem_append]; exact Or.inl he)
    have hxs : updFirstForest p f xs = none := by
      refine updFirstForest_none p f xs ?_
      intro e he
      exact h e (by rw [descForest_cons, List.mem_append]; exact Or.inr he)
    simp [updFirstForest, hx, hxs]
end

mutual
theorem rebuildSelf (p : Elem → Bool) (hp : ∀ e cs, p (e.withChildren cs) = p e)
    (t b : Elem) (hb : ((descSelf t).filter p).head? = some b) :
    ∃ R : Elem → Elem, R b = t ∧ ∀ x, p x = true →
      ((descSelf (R x)).filter p).head? = some x ∧
      ∀ f, updFirstSelf p f (R x) = some (R (f x)) := by
  cases t with
  | mk n tg al tx tl cs =>
    by_cases hpt : p (.mk n tg al tx tl cs) = true
    · have hbt : b = Elem.mk n tg al tx tl cs := by
        rw [descSelf_eq] at hb
        simp only [Elem.children_mk, List.filter_cons, hpt, if_true, List.head?_cons] at hb
        exact (Option.some.inj hb).symm
      refine ⟨fun x => x, hbt, ?_⟩
      intro x px
      constructor
      · rw [descSelf_eq]
        simp [List.filter_cons, px]
      · intro f
        cases x with
        | mk n' tg' al' tx' tl' cs' => simp [updFirstSelf, px]
    · have hpt' : p (.mk n tg al tx tl cs) = false := by
        cases hpp : p (.mk n tg al tx tl cs) with
        | true => exact absurd hpp hpt
        | false => rfl
      have hb' : ((descForest cs).filter p).head? = some b := by
        rw [descSelf_eq] at hb
        simpa [List.filter_cons, hpt'] using hb
      obtain ⟨RF, hRb, hRx⟩ := rebuildForest p hp cs b hb'
      refine ⟨fun x => Elem.mk n tg al tx tl (RF x),
        by show Elem.mk n tg al tx tl (RF b) = _; rw [hRb], ?_⟩
      intro x px
      have hpR : p (Elem.mk n tg al tx tl (RF x)) = false := by
        have h2 := hp (Elem.mk n tg al tx tl cs) (RF x)
        rw [Elem.withChildren_mk] at h2
        rw [h2]
        exact hpt'
      constructor
      · rw [descSelf_eq]
        simp only [Elem.children_mk, List.filter_cons, hpR, Bool.false_eq_true, if_false]
        exact (hRx x px).1
      · intro f
        simp only [updFirstSelf, hpR, Bool.false_eq_true, if_false, (hRx x px).2 f]
theorem rebuildForest (p : Elem → Bool) (hp : ∀ e cs, p (e.withChildren cs) = p e)
    (l : List Elem) (b : Elem) (hb : ((descForest l).filter p).head? = some b) :
    ∃ R : Elem → List Elem, R b = l ∧ ∀ x, p x = true →
      ((descForest (R x)).filter p).head? = some x ∧
      ∀ f, updFirstForest p f (R x) = some (R (f x)) := by
  cases l with
  | nil => simp at hb
  | cons c rest =>
    rw [descForest_cons, List.filter_append, List.head?_append] at hb
    cases hA : ((descSelf c).filter p).head? with
    | some b' =>
      rw [hA] at hb
      have hbb : b' = b := by simpa using hb
      subst hbb
      obtain ⟨RS, hRS, hRSx⟩ := rebuildSelf p hp c b' hA
      refine ⟨fun x => RS x :: rest, by show RS b' :: rest = _; rw [hRS], ?_⟩
      intro x px
      constructor
      · rw [descForest_cons, List.filter_append, List.head?_append, (hRSx x px).1]
        rfl
      · intro f
        simp only [updFirstForest, (hRSx x px).2 f]
    | none =>
      rw [hA] at hb
      have hb' : ((descForest rest).filter p).head? = some b := by simpa using hb
      have hcnone : ∀ e ∈ descSelf c, p e = false := by
        intro e he
        have hnil : (descSelf c).filter p = [] := List.head?_eq_none_iff.mp hA
        have := List.filter_eq_nil_iff.mp hnil e he
        simpa using this
      obtain ⟨RF, hRb, hRx⟩ := rebuildForest p hp rest b hb'
      refine ⟨fun x => c :: RF x, by show c :: RF b = _; rw [hRb], ?_⟩
      intro x px
      constructor
      · rw [descForest_cons, List.filter_append, List.head?_append]
        rw [show ((descSelf c).filter p).head? = none from List.head?_eq_none_iff.mpr
          (List.filter_eq_nil_iff.mpr (fun e he => by simp [hcnone e he]))]
        simpa using (hRx x px).1
      · intro f
        have hcup : updFirstSelf p f c = none := updFirstSelf_none p f c hcnone
        simp only [updFirstForest, hcup, (hRx x px).2 f]
end

theorem get_id_idIs (r : Elem) (i : String) (b : Elem) (hb : get_id r i = some b) :
    idIs i b = true := by
  obtain ⟨ys, hys⟩ := List.head?_eq_some_iff.mp hb
  have hmem : b ∈ (descForest r.children).filter (idIs i) := by
    unfold findAllById at hys
    rw [hys]
    exact List.mem_cons_self _ _
  exact (List.mem_filter.mp hmem).2

theorem get_id_rebuild (r : Elem) (i : String) (b : Elem) (hb : get_id r i = some b) :
    ∃ R : Elem → List Elem, R b = r.children ∧ ∀ x, idIs i x = true →
      get_id (r.withChildren (R x)) i = some x ∧
      ∀ f, updateFirstById (r.withChildren (R x)) i f = r.withChildren (R (f x)) := by
  have hb' : ((descForest r.children).filter (idIs i)).head? = some b := hb
  obtain ⟨RF, hRb, hRx⟩ := rebuildForest (idIs i) (by simp) r.children b hb'
  refine ⟨RF, hRb, ?_⟩
  intro x px
  refine ⟨?_, ?_⟩
  · show ((descForest (r.withChildren (RF x)).children).filter (idIs i)).head? = some x
    rw [Elem.children_withChildren]
    exact (hRx x px).1
  · intro f
    unfold updateFirstById
    rw [Elem.children_withChildren, (hRx x px).2 f]
    simp

/-! ### C2 and C3: `add_mask_patterns` -/

theorem rm_tag_state_masks (s : PcbState) (sc : Option Nat) (tn ns : String)
    (rec rp : Bool) : ((rm_tag_state s sc tn ns rec rp).1.1).masks = s.masks := by
  unfold rm_tag_state
  split
  · rfl
  · rfl

theorem rm_ink_elem_masks (s : PcbState) : (rm_ink_elem s).1.masks = s.masks := by
  unfold rm_ink_elem
  dsimp only
  cases h : (rm_tag_state s (some s.root.nid) "namedview" "sodipodi" false false).2 with
  | some e => simp [h, rm_tag_state_masks]
  | none => simp [h, rm_tag_state_masks]

theorem foldl_insertBeforeLast (ms : List (String × Elem)) (ds : List Elem) (l : Elem) :
    ms.foldl (fun cs p => insertBeforeLast p.2 cs) (ds ++ [l])
      = ds ++ ms.map Prod.snd ++ [l] := by
  induction ms generalizing ds with
  | nil => simp
  | cons m rest ih =>
    simp only [List.foldl_cons]
    have hins : insertBeforeLast m.2 (ds ++ [l]) = (ds ++ [m.2]) ++ [l] := by
      unfold insertBeforeLast
      have hlen : (ds ++ [l]).length - 1 = ds.length := by simp
      rw [hlen]
      rw [List.take_left, List.drop_left]
      simp
    rw [hins, ih (ds ++ [m.2])]
    simp

/-- C2: with a mask store of M entries, `add_mask_patterns` (the
`src/src/pcbdrawtopdf` variant the spec describes) leaves the board with
N+M children, the masks contiguous, in store order, immediately before the
element that was the board's last child, and it does not touch the store. -/
theorem claim2_add_mask_patterns (s s1 : PcbState) (b : Elem) (cs : List Elem)
    (h0 : rm_ink_elem s = (s1, none))
    (hb : get_id s1.root "boardContainer" = some b)
    (hcs : b.children = cs) (hne : cs ≠ []) :
    ∃ s2 b2, add_mask_patterns s = (s2, none) ∧
      get_id s2.root "boardContainer" = some b2 ∧
      b2.children = cs.dropLast ++ s1.masks.map Prod.snd ++ [cs.getLast hne] ∧
      b2.children.length = cs.length + s1.masks.length ∧
      s2.masks = s.masks := by
  obtain ⟨R, hRb, hRx⟩ := get_id_rebuild s1.root "boardContainer" b hb
  have hpb := get_id_idIs s1.root "boardContainer" b hb
  have hroot_self : s1.root.withChildren (R b) = s1.root := by
    rw [hRb]; exact Elem.withChildren_self _
  set f : Elem → Elem := fun bd =>
    bd.withChildren (s1.masks.foldl (fun cs p => insertBeforeLast p.2 cs) bd.children)
    with hf
  have hfb_id : idIs "boardContainer" (f b) = true := by
    rw [hf]; simpa using hpb
  have hupd : updateFirstById s1.root "boardContainer" f = s1.root.withChildren (R (f b)) := by
    conv_lhs => rw [← hroot_self]
    exact (hRx b hpb).2 f
  have hget : get_id (s1.root.withChildren (R (f b))) "boardContainer" = some (f b) := by
    have := (hRx (f b) hfb_id).1
    exact this
  have hlen0 : ¬ b.children.length = 0 := by
    rw [hcs]
    simpa using hne
  have hamp : add_mask_patterns s
      = ({ s1 with root := updateFirstById s1.root "boardContainer" f }, none) := by
    unfold add_mask_patterns
    rw [h0]
    simp only [hb, hlen0, if_false]
  have hchf : (f b).children = cs.dropLast ++ s1.masks.map Prod.snd ++ [cs.getLast hne] := by
    rw [hf]
    simp only [Elem.children_withChildren]
    rw [hcs]
    conv_lhs => rw [← List.dropLast_append_getLast hne]
    rw [foldl_insertBeforeLast]
  refine ⟨{ s1 with root := updateFirstById s1.root "boardContainer" f }, f b, hamp,
    ?_, hchf, ?_, ?_⟩
  · show get_id (updateFirstById s1.root "boardContainer" f) "boardContainer" = some (f b)
    rw [hupd]
    exact hget
  · rw [hchf]
    have hdl : cs.dropLast.length + 1 = cs.length := by
      conv_rhs => rw [← List.dropLast_append_getLast hne]
      simp
    simp only [List.length_append, List.length_cons, List.length_nil, List.length_map]
    omega
  · show s1.masks = s.masks
    have := rm_ink_elem_masks s
    rw [h0] at this
    exact this

/-- C2 witness: on the captured example session the board ends with 2+3
children. -/
theorem claim2_add_mask_patterns_witness :
    ∃ s2 b2, add_mask_patterns exStateMasks = (s2, none) ∧
      get_id s2.root "boardContainer" = some b2 ∧
      b2.children.length = 2 + 3 := by
  obtain ⟨s2, b2, h1, h2, h3, h4, h5⟩ :=
    claim2_add_mask_patterns exStateMasks (rm_ink_elem exStateMasks).1 exBoard
      exBoard.children (by rfl) (by rfl) rfl (by simp [exBoard])
  refine ⟨s2, b2, h1, h2, ?_⟩
  rw [h4]
  rfl

/-- C3: on a state whose board fragment has zero children,
`add_mask_patterns` raises the empty-board error (after the initial
`rm_ink_elem`) and the mask store is unchanged — no entry added, removed or
mutated. -/
theorem claim3_add_mask_patterns_empty (s s1 : PcbState) (b : Elem)
    (h0 : rm_ink_elem s = (s1, none))
    (hb : get_id s1.root "boardContainer" = some b)
    (hcs : b.children = []) :
    add_mask_patterns s = (s1, some .emptyBoard) ∧
    (add_mask_patterns s).1.masks = s.masks := by
  have hamp : add_mask_patterns s = (s1, some .emptyBoard) := by
    unfold add_mask_patterns
    rw [h0]
    simp only [hb, hcs]
    simp
  refine ⟨hamp, ?_⟩
  rw [hamp]
  have := rm_ink_elem_masks s
  rw [h0] at this
  exact this

/-- C3 witness: the empty-board example session fails with the error and
keeps its single stored mask. -/
theorem claim3_add_mask_patterns_empty_witness :
    add_mask_patterns exStateEmptyBoard = ((rm_ink_elem exStateEmptyBoard).1, some .emptyBoard) ∧
    (add_mask_patterns exStateEmptyBoard).1.masks = exStateEmptyBoard.masks := by
  exact claim3_add_mask_patterns_empty exStateEmptyBoard (rm_ink_elem exStateEmptyBoard).1
    (.mk 40 (qS "g") [("id", "boardContainer")] none none []) (by rfl) (by rfl) rfl

/-! ### C8: per-mask export is transactional -/

theorem saveMaskLoop_spec (out fn ext : String) (r b : Elem)
    (hb : get_id r "boardContainer" = some b)
    (ms : List (String × Elem))
    (hfresh : ∀ p ∈ ms, p.2.nid ∉ b.children.map Elem.nid) :
    saveMaskLoop out fn ext r ms =
      ((r, ms.map (fun p => (pathJoin out (fn ++ "_" ++ p.1 ++ ext),
          updateFirstById r "boardContainer"
            (fun bd => bd.withChildren (bd.children ++ [p.2]))))), none) := by
  induction ms with
  | nil => rfl
  | cons m rest ih =>
    obtain ⟨nm, mv⟩ := m
    obtain ⟨R, hRb, hRx⟩ := get_id_rebuild r "boardContainer" b hb
    have hpb := get_id_idIs r "boardContainer" b hb
    have hroot_self : r.withChildren (R b) = r := by
      rw [hRb]; exact Elem.withChildren_self _
    have hApp_id : idIs "boardContainer"
        (b.withChildren (b.children ++ [mv])) = true := by
      simpa using hpb
    have hupd1 : updateFirstById r "boardContainer"
        (fun bd => bd.withChildren (bd.children ++ [mv]))
        = r.withChildren (R (b.withChildren (b.children ++ [mv]))) := by
      conv_lhs => rw [← hroot_self]
      exact (hRx b hpb).2 _
    have hupd2 : updateFirstById
        (r.withChildren (R (b.withChildren (b.children ++ [mv])))) "boardContainer"
        (fun bd => bd.withChildren (removeFirstNid mv.nid bd.children))
        = r.withChildren (R ((b.withChildren (b.children ++ [mv])).withChildren
            (removeFirstNid mv.nid (b.withChildren (b.children ++ [mv])).children))) :=
      (hRx (b.withChildren (b.children ++ [mv])) hApp_id).2 _
    have hRem : (b.withChildren (b.children ++ [mv])).withChildren
        (removeFirstNid mv.nid (b.withChildren (b.children ++ [mv])).children) = b := by
      simp only [Elem.children_withChildren, Elem.withChildren_withChildren]
      rw [show b.children ++ [mv] = b.children ++ mv :: [] from rfl]
      rw [removeFirstNid_append mv.nid b.children [] mv rfl
        (hfresh (nm, mv) (List.mem_cons_self _ _))]
      simp
    have hrest := ih (fun p hp => hfresh p (List.mem_cons_of_mem _ hp))
    unfold saveMaskLoop
    rw [hb]
    dsimp only
    rw [hupd1, hupd2, hRem, hroot_self, hrest]
    simp only [List.map_cons]
    rw [hupd1]

/-- C8: with K captured masks and a resolvable board, `save_mask_files`
writes exactly K files, one per mask in store order, named
`<basename>_<maskname><extension>`, each holding the full working tree with
exactly one mask appended to the board; each iteration's append is undone
before the next, so the session state (in particular the board's child list)
is unchanged after the call. -/
theorem claim8_save_mask_files (s : PcbState) (out : String) (b : Elem)
    (hb : get_id s.root "boardContainer" = some b)
    (hfresh : ∀ p ∈ s.masks, p.2.nid ∉ b.children.map Elem.nid) :
    save_mask_files s out =
      ((s, s.masks.map (fun p =>
          (pathJoin out (s.filename ++ "_" ++ p.1 ++ s.ext),
           updateFirstById s.root "boardContainer"
             (fun bd => bd.withChildren (bd.children ++ [p.2]))))), none) ∧
    (∀ p ∈ s.masks,
      get_id (updateFirstById s.root "boardContainer"
          (fun bd => bd.withChildren (bd.children ++ [p.2]))) "boardContainer"
        = some (b.withChildren (b.children ++ [p.2]))) ∧
    get_id (save_mask_files s out).1.1.root "boardContainer" = some b := by
  have hloop := saveMaskLoop_spec out s.filename s.ext s.root b hb s.masks hfresh
  obtain ⟨R, hRb, hRx⟩ := get_id_rebuild s.root "boardContainer" b hb
  have hpb := get_id_idIs s.root "boardContainer" b hb
  have hroot_self : s.root.withChildren (R b) = s.root := by
    rw [hRb]; exact Elem.withChildren_self _
  have hmain : save_mask_files s out =
      ((s, s.masks.map (fun p =>
          (pathJoin out (s.filename ++ "_" ++ p.1 ++ s.ext),
           updateFirstById s.root "boardContainer"
             (fun bd => bd.withChildren (bd.children ++ [p.2]))))), none) := by
    unfold save_mask_files
    rw [hloop]
  refine ⟨hmain, ?_, ?_⟩
  · intro p hp
    have hApp_id : idIs "boardContainer" (b.withChildren (b.children ++ [p.2])) = true := by
      simpa using hpb
    have hupd1 : updateFirstById s.root "boardContainer"
        (fun bd => bd.withChildren (bd.children ++ [p.2]))
        = s.root.withChildren (R (b.withChildren (b.children ++ [p.2]))) := by
      conv_lhs => rw [← hroot_self]
      exact (hRx b hpb).2 _
    rw [hupd1]
    exact (hRx (b.withChildren (b.children ++ [p.2])) hApp_id).1
  · rw [hmain]
    exact hb

/-- C8 witness: the example session with its three captured masks writes the
three expected files and the board keeps its two children. -/
theorem claim8_save_mask_files_witness :
    (save_mask_files exStateMasks "out").2 = none ∧
    ((save_mask_files exStateMasks "out").1.2.map Prod.fst)
      = ["out/board_hole-mask.svg", "out/board_pads-mask-silkscreen.svg",
         "out/board_pads-mask.svg"] ∧
    (save_mask_files exStateMasks "out").1.1.root = exDoc := by
  have h := claim8_save_mask_files exStateMasks "out" exBoard (by rfl) (by decide)
  refine ⟨by rw [h.1], ?_, by rw [h.1]; rfl⟩
  rw [h.1]
  rfl

/-! ### C7: the Original Tree is never mutated; `reset` restores it -/

theorem get_mask_root_orig (s : PcbState) (nm : String) :
    (get_mask s nm).1.root_orig = s.root_orig := by
  unfold get_mask
  split
  · rfl
  · split
    · rfl
    · rfl

theorem get_masks_root_orig (s : PcbState) : (get_masks s).1.root_orig = s.root_orig := by
  unfold get_masks
  dsimp only
  cases h1 : (get_mask s "hole-mask").2 with
  | some e =>
    simp only [h1]
    exact get_mask_root_orig s "hole-mask"
  | none =>
    simp only [h1]
    cases h2 : (get_mask (get_mask s "hole-mask").1 "pads-mask-silkscreen").2 with
    | some e =>
      simp only [h2]
      rw [get_mask_root_orig, get_mask_root_orig]
    | none =>
      simp only [h2]
      rw [get_mask_root_orig, get_mask_root_orig, get_mask_root_orig]

theorem rm_tag_state_root_orig (s : PcbState) (sc : Option Nat) (tn ns : String)
    (rec rp : Bool) : ((rm_tag_state s sc tn ns rec rp).1.1).root_orig = s.root_orig := by
  unfold rm_tag_state
  split
  · rfl
  · rfl

theorem rm_ink_elem_root_orig (s : PcbState) : (rm_ink_elem s).1.root_orig = s.root_orig := by
  unfold rm_ink_elem
  dsimp only
  cases h : (rm_tag_state s (some s.root.nid) "namedview" "sodipodi" false false).2 with
  | some e =>
    simp only [h]
    exact rm_tag_state_root_orig _ _ _ _ _ _
  | none =>
    simp only [h]
    rw [rm_tag_state_root_orig, rm_tag_state_root_orig]

theorem add_mask_patterns_root_orig (s : PcbState) :
    (add_mask_patterns s).1.root_orig = s.root_orig := by
  unfold add_mask_patterns
  dsimp only
  cases h0 : (rm_ink_elem s).2 with
  | some e =>
    simp only [h0]
    exact rm_ink_elem_root_orig s
  | none =>
    simp only [h0]
    cases hb : get_id (rm_ink_elem s).1.root "boardContainer" with
    | none =>
      simp only [hb]
      exact rm_ink_elem_root_orig s
    | some b =>
      simp only [hb]
      split
      · exact rm_ink_elem_root_orig s
      · rw [show ({ (rm_ink_elem s).1 with
            root := updateFirstById (rm_ink_elem s).1.root "boardContainer"
              (fun bd => bd.withChildren
                ((rm_ink_elem s).1.masks.foldl (fun cs p => insertBeforeLast p.2 cs)
                  bd.children)) } : PcbState).root_orig
          = (rm_ink_elem s).1.root_orig from rfl]
        exact rm_ink_elem_root_orig s

theorem save_mask_files_root_orig (s : PcbState) (out : String) :
    (save_mask_files s out).1.1.root_orig = s.root_orig := rfl

theorem isolate_board_root_orig (s : PcbState) :
    (isolate_board s).1.root_orig = s.root_orig := by
  unfold isolate_board
  dsimp only
  (repeat' split) <;> rfl

theorem rm_masks_root_orig (s : PcbState) : (rm_masks s).1.root_orig = s.root_orig := by
  unfold rm_masks
  dsimp only
  split
  · rfl
  · split
    · rfl
    · rw [rm_ink_elem_root_orig]

theorem clean_root_orig (s : PcbState) : (clean s).1.root_orig = s.root_orig := by
  unfold clean
  split
  · rfl
  · split
    · rfl
    · rfl

theorem applyOp_root_orig (s : PcbState) (o : Op) :
    (applyOp s o).root_orig = s.root_orig := by
  cases o with
  | opGetMasks => exact get_masks_root_orig s
  | opRmMasks => exact rm_masks_root_orig s
  | opIsolateBoard => exact isolate_board_root_orig s
  | opAddMaskPatterns => exact add_mask_patterns_root_orig s
  | opSaveMaskFiles out => exact save_mask_files_root_orig s out
  | opClean => exact clean_root_orig s

theorem applyOps_root_orig (ops : List Op) (s : PcbState) :
    (applyOps s ops).root_orig = s.root_orig := by
  induction ops generalizing s with
  | nil => rfl
  | cons o rest ih =>
    show (applyOps (applyOp s o) rest).root_orig = s.root_orig
    rw [ih (applyOp s o), applyOp_root_orig]

theorem reset_root (s : PcbState) :
    (reset s).1.root = (relabelSelf s.fresh s.root_orig).1 := by
  unfold reset
  dsimp only
  split
  · rfl
  · rfl

/-- C7: no mutating operation ever touches the Original Tree, and after any
sequence of operations (isolation included) `reset` rebuilds a Working Tree
structurally equal (deep-copy equal) to the Original Tree as parsed. -/
theorem claim7_reset_restores (ops : List Op) (s : PcbState) :
    (applyOps s ops).root_orig = s.root_orig ∧
    stripNid ((reset (applyOps s ops)).1.root) = stripNid s.root_orig := by
  have h := applyOps_root_orig ops s
  refine ⟨h, ?_⟩
  rw [reset_root, stripNid_relabelSelf, h]

end PcbDraw
